import Mathlib

/-!
Verification of the music-theory engine of `musicmodesapp/app.py`.

The engine is a handful of pure functions over a fixed 12-tone chromatic
alphabet (`NOTES_SHARP`) and a table of seven 7-step mode interval patterns
(`MODE_PATTERNS`).  Python dictionaries preserve insertion order and here have
pairwise-distinct keys, so they are embedded as ordered association lists.
Fallible lookups (Python `list.index` raising `ValueError`, `dict[...]`
raising `KeyError`) are embedded as `Except EngineError`:
`UnknownNoteError` models the `ValueError` raised when a note name is not in
`NOTES_SHARP`, and `UnknownModeError` models the `KeyError`/`ValueError`
raised when a mode name is not a key of `MODE_PATTERNS`.
-/

namespace MusicModes

/-- The 12 pitch-class spellings, sharps only (`NOTES_SHARP` in the source). -/
def NOTES_SHARP : List String :=
  ["C", "C#", "D", "D#", "E", "F"] ++ ["F#", "G", "G#", "A", "A#", "B"]

/-- The seven diatonic mode names with their interval-step tables, in the
source's insertion order (`MODE_PATTERNS` in the source). -/
def MODE_PATTERNS : List (String × List Nat) :=
  [("Ionian",     [2, 2, 1, 2, 2, 2, 1]),
   ("Dorian",     [2, 1, 2, 2, 2, 1, 2]),
   ("Phrygian",   [1, 2, 2, 2, 1, 2, 2]),
   ("Lydian",     [2, 2, 2, 1, 2, 2, 1]),
   ("Mixolydian", [2, 2, 1, 2, 2, 1, 2]),
   ("Aeolian",    [2, 1, 2, 2, 1, 2, 2]),
   ("Locrian",    [1, 2, 2, 1, 2, 2, 2])]

/-- The canonical ordered list of mode names (`list(MODE_PATTERNS.keys())`). -/
def MODE_NAMES : List String := MODE_PATTERNS.map Prod.fst

/-- Triad qualities of the Ionian mode, degree by degree
(`IONIAN_TRIADS` in the source). -/
def IONIAN_TRIADS : List String := ["maj", "min", "min", "maj", "maj", "min", "dim"]

/-- The engine's error taxonomy: `UnknownNoteError` models the `ValueError`
raised by `NOTES_SHARP.index` on an unrecognized note name, `UnknownModeError`
the `KeyError`/`ValueError` raised by mode-table lookups on an unrecognized
mode name.  Returning `Except.error` embeds the Python exception propagating
to the caller uncaught by the engine. -/
inductive EngineError where
  | UnknownNoteError
  | UnknownModeError
deriving DecidableEq

deriving instance DecidableEq for Except

/-- The loop body of `build_scale`: starting from chromatic index `i`, append
`NOTES_SHARP[(i + step) % 12]` for each step, threading the updated index. -/
def build_scale_loop : Nat → List Nat → List String
  | _, [] => []
  | i, step :: rest =>
      NOTES_SHARP.getD ((i + step) % 12) "" :: build_scale_loop ((i + step) % 12) rest

/-- `build_scale(root, intervals)`: look up `root` in `NOTES_SHARP` (raising
`UnknownNoteError` when absent), then walk `intervals[:-1]`, advancing the
chromatic index modulo 12 and collecting the visited notes after `root`. -/
def build_scale (root : String) (intervals : List Nat) : Except EngineError (List String) :=
  match NOTES_SHARP.indexOf? root with
  | none => Except.error EngineError.UnknownNoteError
  | some root_index => Except.ok (root :: build_scale_loop root_index intervals.dropLast)

/-- `chord_quality_from_mode(mode)`: rotate `IONIAN_TRIADS` left by the index
of `mode` in the canonical mode order (`UnknownModeError` when absent). -/
def chord_quality_from_mode (mode : String) : Except EngineError (List String) :=
  match MODE_NAMES.indexOf? mode with
  | none => Except.error EngineError.UnknownModeError
  | some shift => Except.ok (IONIAN_TRIADS.drop shift ++ IONIAN_TRIADS.take shift)

/-- The chord-symbol format string `f"{n}{qual if qual != 'maj' else ''}"`. -/
def chord_symbol (n qual : String) : String :=
  n ++ (if qual != "maj" then qual else "")

/-- `mode_scale(root, mode)`: look up the mode's pattern (`KeyError` first,
as in the source), build the scale, rotate the qualities, and format the
per-degree chord symbols. -/
def mode_scale (root mode : String) : Except EngineError (List String × List String) :=
  match MODE_PATTERNS.lookup mode with
  | none => Except.error EngineError.UnknownModeError
  | some pattern =>
    match build_scale root pattern with
    | Except.error e => Except.error e
    | Except.ok scale =>
      match chord_quality_from_mode mode with
      | Except.error e => Except.error e
      | Except.ok qualities =>
        Except.ok (scale, (scale.zip qualities).map (fun p => chord_symbol p.1 p.2))

/-- `relative_modes(parent_key)`: build the Ionian scale at `parent_key`; the
i-th family entry is labelled `f"{parent_scale[i]} {mode_i}"` and carries the
chords of `mode_scale(parent_scale[i], mode_i)`.  The resulting dict is
embedded as its ordered list of (label, chords) pairs. -/
def relative_modes (parent_key : String) :
    Except EngineError (List (String × List String)) :=
  match build_scale parent_key ((MODE_PATTERNS.lookup "Ionian").getD []) with
  | Except.error e => Except.error e
  | Except.ok parent_scale =>
    MODE_NAMES.enum.mapM (fun p =>
      let mode_root := parent_scale.getD p.1 ""
      match mode_scale mode_root p.2 with
      | Except.error e => Except.error e
      | Except.ok sc => Except.ok (mode_root ++ " " ++ p.2, sc.2))

/-- `parallel_modes(root_key)`: one entry per mode name, all with tonic
`root_key`, labelled `f"{root_key} {mode}"`. -/
def parallel_modes (root_key : String) :
    Except EngineError (List (String × List String)) :=
  MODE_NAMES.mapM (fun mode =>
    match mode_scale root_key mode with
    | Except.error e => Except.error e
    | Except.ok sc => Except.ok (root_key ++ " " ++ mode, sc.2))

/-- Python's case-sensitive `str.endswith`, via the character lists. -/
def endswith (s suf : String) : Bool := suf.data.isSuffixOf s.data

/-- `reorder_modes(modes_dict, start_mode_name)`: find the first key ending
with `start_mode_name` (position 0 when none matches), rotate the key list to
start there, and rebuild the dict in rotated order by key lookup. -/
def reorder_modes (modes_dict : List (String × List String)) (start_mode_name : String) :
    List (String × List String) :=
  let keys := modes_dict.map Prod.fst
  let start_idx := (keys.findIdx? (fun k => endswith k start_mode_name)).getD 0
  let rotated_keys := keys.drop start_idx ++ keys.take start_idx
  rotated_keys.map (fun k => (k, (modes_dict.lookup k).getD []))

/-- `find_parent_major(selected_key, selected_mode)`: subtract the cumulative
Ionian semitone offset of the mode's canonical index from the key's chromatic
index, modulo 12 (Python's `%` on a negative dividend is nonnegative, matching
`Int.emod` with positive divisor). -/
def find_parent_major (selected_key selected_mode : String) : Except EngineError String :=
  match MODE_NAMES.indexOf? selected_mode with
  | none => Except.error EngineError.UnknownModeError
  | some mode_index =>
    let intervals := (MODE_PATTERNS.lookup "Ionian").getD []
    let total_semitones := (intervals.take mode_index).sum
    match NOTES_SHARP.indexOf? selected_key with
    | none => Except.error EngineError.UnknownNoteError
    | some key_index =>
      let root_index := (((key_index : Int) - (total_semitones : Int)) % 12).toNat
      Except.ok (NOTES_SHARP.getD root_index "")

/-- `BRIGHTNESS_ORDER`, brightest to darkest. -/
def BRIGHTNESS_ORDER : List String :=
  ["Lydian", "Ionian", "Mixolydian", "Dorian", "Aeolian", "Phrygian", "Locrian"]

/-- `BRIGHTNESS_MAP = {mode: idx for idx, mode in enumerate(BRIGHTNESS_ORDER)}`. -/
def BRIGHTNESS_MAP : List (String × Nat) :=
  BRIGHTNESS_ORDER.enum.map (fun p => (p.2, p.1))

/-- `BRIGHTNESS_MAP.get(mode_name, 100)`: rank lookup with sentinel 100. -/
def brightness_rank (mode_name : String) : Nat :=
  (BRIGHTNESS_MAP.lookup mode_name).getD 100

/-- The sort key `lambda x: BRIGHTNESS_MAP.get(x.split()[-1], 100)` applied to
a row label such as `"C Ionian"`. -/
def brightness_key (x : String) : Nat :=
  brightness_rank ((x.splitOn " ").getLastD "")

/-- The root spelled at the front of a family entry's label `"root mode"`
(note names contain no spaces). -/
def label_root (label : String) : String :=
  String.mk (label.data.takeWhile (fun c => c != ' '))

/-- Accessor for stating claims: the payload of a successful `build_scale`
call (`[]` when the call failed). -/
def scale_of (root : String) (pat : List Nat) : List String :=
  (build_scale root pat).toOption.getD []

/-- Claim C3: the chord derivation matches the spec's literal expected outputs:
`mode_scale("C", "Ionian")` yields the C-major scale with chords
C, Dmin, Emin, F, G, Amin, Bdim, and `mode_scale("D", "Dorian")` yields
D, E, F, G, A, B, C with chords Dmin, Emin, F, G, Amin, Bdim, C. -/
theorem C3_literal_chords :
    mode_scale "C" "Ionian" =
      Except.ok (["C", "D", "E", "F", "G", "A", "B"],
                 ["C", "Dmin", "Emin", "F", "G", "Amin", "Bdim"]) ∧
    mode_scale "D" "Dorian" =
      Except.ok (["D", "E", "F", "G", "A", "B", "C"],
                 ["Dmin", "Emin", "F", "G", "Amin", "Bdim", "C"]) := by
  constructor <;> rfl

/-- Claim C4: for every mode, the per-degree triad-quality sequence is the fixed
Ionian sequence (maj, min, min, maj, maj, min, dim) rotated left by the
mode's 0-based index in the canonical mode order; in particular Dorian
(index 1) yields (min, min, maj, maj, min, dim, maj). -/
theorem C4_quality_rotation :
    IONIAN_TRIADS = ["maj", "min", "min", "maj", "maj", "min", "dim"] ∧
    (∀ i, i < 7 → chord_quality_from_mode (MODE_NAMES.getD i "") =
        Except.ok (IONIAN_TRIADS.rotate i)) ∧
    chord_quality_from_mode "Dorian" =
      Except.ok ["min", "min", "maj", "maj", "min", "dim", "maj"] := by
  refine ⟨rfl, ?_, rfl⟩
  decide

/-- Witness for C4 at the Dorian index. -/
theorem C4_witness :
    chord_quality_from_mode (MODE_NAMES.getD 1 "") = Except.ok (IONIAN_TRIADS.rotate 1) :=
  C4_quality_rotation.2.1 1 (by decide)

/-- Claim C2: `find_parent_major` is the exact left-inverse of relative-family
construction: for every recognized root `R` and mode index `i < 7`, feeding
the root of the i-th entry of `relative_modes R` together with the i-th
canonical mode name back into `find_parent_major` recovers `R`. -/
theorem C2_left_inverse :
    ∀ R ∈ NOTES_SHARP, ∃ fam, relative_modes R = Except.ok fam ∧
      ∀ i, i < 7 →
        find_parent_major (label_root ((fam.getD i ("", [])).1)) (MODE_NAMES.getD i "") =
          Except.ok R := by
  intro R hR
  fin_cases hR <;> exact ⟨_, rfl, by decide⟩

/-- Witness for C2 at root C. -/
theorem C2_witness :
    ∃ fam, relative_modes "C" = Except.ok fam ∧
      ∀ i, i < 7 →
        find_parent_major (label_root ((fam.getD i ("", [])).1)) (MODE_NAMES.getD i "") =
          Except.ok "C" :=
  C2_left_inverse "C" (by decide)

/-- Claim C5: `relative_modes` preserves the key signature: for every recognized
parent root `R`, the i-th entry's root is the i-th note of the Ionian scale
at `R`, and the scale built from that root with the i-th mode's pattern has
exactly the same notes as that Ionian scale. -/
theorem C5_key_signature :
    ∀ R ∈ NOTES_SHARP,
      ∃ parent_scale,
        build_scale R ((MODE_PATTERNS.lookup "Ionian").getD []) = Except.ok parent_scale ∧
      ∃ fam, relative_modes R = Except.ok fam ∧
        ∀ i, i < 7 →
          label_root ((fam.getD i ("", [])).1) = parent_scale.getD i "" ∧
          (build_scale (parent_scale.getD i "") ((MODE_PATTERNS.getD i ("", [])).2) =
            Except.ok (scale_of (parent_scale.getD i "") ((MODE_PATTERNS.getD i ("", [])).2))) ∧
          (∀ n ∈ scale_of (parent_scale.getD i "") ((MODE_PATTERNS.getD i ("", [])).2),
            n ∈ parent_scale) ∧
          (∀ n ∈ parent_scale,
            n ∈ scale_of (parent_scale.getD i "") ((MODE_PATTERNS.getD i ("", [])).2)) := by
  intro R hR
  fin_cases hR <;> exact ⟨_, rfl, _, rfl, by decide⟩

/-- Witness for C5 at root C. -/
theorem C5_witness :
    ∃ parent_scale,
      build_scale "C" ((MODE_PATTERNS.lookup "Ionian").getD []) = Except.ok parent_scale ∧
    ∃ fam, relative_modes "C" = Except.ok fam ∧
      ∀ i, i < 7 →
        label_root ((fam.getD i ("", [])).1) = parent_scale.getD i "" ∧
        (build_scale (parent_scale.getD i "") ((MODE_PATTERNS.getD i ("", [])).2) =
          Except.ok (scale_of (parent_scale.getD i "") ((MODE_PATTERNS.getD i ("", [])).2))) ∧
        (∀ n ∈ scale_of (parent_scale.getD i "") ((MODE_PATTERNS.getD i ("", [])).2),
          n ∈ parent_scale) ∧
        (∀ n ∈ parent_scale,
          n ∈ scale_of (parent_scale.getD i "") ((MODE_PATTERNS.getD i ("", [])).2)) :=
  C5_key_signature "C" (by decide)

/-- Claim C6: for all 12 roots and all 7 mode step tables, `build_scale` yields 7
pairwise-distinct notes, the last note's index plus the pattern's last step
returns to the root's index modulo 12, and the scale component of
`mode_scale(root, mode)` starts at the root. -/
theorem C6_scale_shape :
    ∀ root ∈ NOTES_SHARP, ∀ mp ∈ MODE_PATTERNS,
      build_scale root mp.2 = Except.ok (scale_of root mp.2) ∧
      (scale_of root mp.2).length = 7 ∧
      (scale_of root mp.2).Nodup ∧
      (NOTES_SHARP.indexOf ((scale_of root mp.2).getLastD "") + mp.2.getLastD 0) % 12 =
        NOTES_SHARP.indexOf root ∧
      (mode_scale root mp.1).map Prod.fst = Except.ok (scale_of root mp.2) ∧
      (scale_of root mp.2).headD "" = root := by
  decide

/-- Witness for C6 at root C, mode Ionian. -/
theorem C6_witness :
    build_scale "C" [2, 2, 1, 2, 2, 2, 1] = Except.ok (scale_of "C" [2, 2, 1, 2, 2, 2, 1]) ∧
    (scale_of "C" [2, 2, 1, 2, 2, 2, 1]).length = 7 ∧
    (scale_of "C" [2, 2, 1, 2, 2, 2, 1]).Nodup ∧
    (NOTES_SHARP.indexOf ((scale_of "C" [2, 2, 1, 2, 2, 2, 1]).getLastD "") +
        ([2, 2, 1, 2, 2, 2, 1] : List Nat).getLastD 0) % 12 =
      NOTES_SHARP.indexOf "C" ∧
    (mode_scale "C" "Ionian").map Prod.fst = Except.ok (scale_of "C" [2, 2, 1, 2, 2, 2, 1]) ∧
    (scale_of "C" [2, 2, 1, 2, 2, 2, 1]).headD "" = "C" :=
  C6_scale_shape "C" (by decide) ("Ionian", [2, 2, 1, 2, 2, 2, 1]) (by decide)

/-- A name that is not in a list is not found by `indexOf?`. -/
theorem indexOf?_none_of_not_mem {l : List String} {x : String} (h : x ∉ l) :
    l.indexOf? x = none := by
  rw [List.indexOf?_eq_none_iff]
  intro y hy
  simp only [beq_iff_eq]
  exact fun hEq => h (hEq ▸ hy)

/-- A key that is not among an association list's keys is not found by `lookup`. -/
theorem lookup_none_of_not_mem {β : Type} {l : List (String × β)} {x : String}
    (h : x ∉ l.map Prod.fst) : l.lookup x = none := by
  rw [List.lookup_eq_none_iff]
  intro p hp
  simp only [bne_iff_ne]
  exact fun hEq => h (hEq ▸ List.mem_map_of_mem Prod.fst hp)

/-- An unrecognized root makes `build_scale` fail with `UnknownNoteError`. -/
theorem build_scale_unknown (root : String) (h : root ∉ NOTES_SHARP) (intervals : List Nat) :
    build_scale root intervals = Except.error EngineError.UnknownNoteError := by
  unfold build_scale
  rw [indexOf?_none_of_not_mem h]

/-- An unrecognized mode makes `mode_scale` fail with `UnknownModeError`. -/
theorem mode_scale_unknown_mode (mode : String) (h : mode ∉ MODE_NAMES) (root : String) :
    mode_scale root mode = Except.error EngineError.UnknownModeError := by
  unfold mode_scale
  rw [lookup_none_of_not_mem h]

/-- An unrecognized mode makes `chord_quality_from_mode` fail with `UnknownModeError`. -/
theorem chord_quality_unknown_mode (mode : String) (h : mode ∉ MODE_NAMES) :
    chord_quality_from_mode mode = Except.error EngineError.UnknownModeError := by
  unfold chord_quality_from_mode
  rw [indexOf?_none_of_not_mem h]

/-- An unrecognized mode makes `find_parent_major` fail with `UnknownModeError`. -/
theorem find_parent_major_unknown_mode (mode : String) (h : mode ∉ MODE_NAMES)
    (key : String) :
    find_parent_major key mode = Except.error EngineError.UnknownModeError := by
  unfold find_parent_major
  rw [indexOf?_none_of_not_mem h]

/-- An unrecognized root propagates through `mode_scale` as `UnknownNoteError`. -/
theorem mode_scale_unknown_note (root : String) (h : root ∉ NOTES_SHARP) :
    ∀ mode ∈ MODE_NAMES, mode_scale root mode = Except.error EngineError.UnknownNoteError := by
  intro mode hmode
  fin_cases hmode <;>
    simp [mode_scale, MODE_PATTERNS, List.lookup, build_scale_unknown root h]

/-- Claim C7: an unrecognized note name makes `build_scale` fail with
`UnknownNoteError` (also through `mode_scale`), an unrecognized mode name
makes the mode-consuming operations fail with `UnknownModeError`, the errors
propagate to the caller (the `Except.error` value is the result), and all
engine operations succeed on every valid (note, mode) input. -/
theorem C7_error_handling :
    (∀ root, root ∉ NOTES_SHARP → ∀ intervals,
        build_scale root intervals = Except.error EngineError.UnknownNoteError) ∧
    (∀ root, root ∉ NOTES_SHARP → ∀ mode ∈ MODE_NAMES,
        mode_scale root mode = Except.error EngineError.UnknownNoteError) ∧
    (∀ mode, mode ∉ MODE_NAMES →
        (∀ root, mode_scale root mode = Except.error EngineError.UnknownModeError) ∧
        chord_quality_from_mode mode = Except.error EngineError.UnknownModeError ∧
        (∀ key, find_parent_major key mode = Except.error EngineError.UnknownModeError)) ∧
    (∀ root ∈ NOTES_SHARP, ∀ mode ∈ MODE_NAMES,
        (build_scale root ((MODE_PATTERNS.lookup mode).getD [])).isOk ∧
        (chord_quality_from_mode mode).isOk ∧
        (mode_scale root mode).isOk ∧
        (find_parent_major root mode).isOk ∧
        (relative_modes root).isOk ∧
        (parallel_modes root).isOk) := by
  refine ⟨build_scale_unknown, mode_scale_unknown_note, ?_, ?_⟩
  · intro mode h
    exact ⟨mode_scale_unknown_mode mode h, chord_quality_unknown_mode mode h,
      find_parent_major_unknown_mode mode h⟩
  · decide

/-- Witness for C7: concrete error and success cases. -/
theorem C7_witness :
    build_scale "H" [2, 2] = Except.error EngineError.UnknownNoteError ∧
    mode_scale "H" "Ionian" = Except.error EngineError.UnknownNoteError ∧
    mode_scale "C" "Foo" = Except.error EngineError.UnknownModeError ∧
    find_parent_major "C" "Foo" = Except.error EngineError.UnknownModeError ∧
    (mode_scale "C" "Ionian").isOk :=
  ⟨C7_error_handling.1 "H" (by decide) [2, 2],
   C7_error_handling.2.1 "H" (by decide) "Ionian" (by decide),
   (C7_error_handling.2.2.1 "Foo" (by decide)).1 "C",
   (C7_error_handling.2.2.1 "Foo" (by decide)).2.2 "C",
   (C7_error_handling.2.2.2 "C" (by decide) "Ionian" (by decide)).2.2.1⟩

/-- Claim C9: the brightness rank realizes the strict chain
Lydian < Ionian < Mixolydian < Dorian < Aeolian < Phrygian < Locrian with
ranks 0 through 6, and every unrecognized name gets the sentinel rank 100,
which is greater than 6 — a total, non-raising function. -/
theorem C9_brightness :
    (brightness_rank "Lydian" = 0 ∧ brightness_rank "Ionian" = 1 ∧
     brightness_rank "Mixolydian" = 2 ∧ brightness_rank "Dorian" = 3 ∧
     brightness_rank "Aeolian" = 4 ∧ brightness_rank "Phrygian" = 5 ∧
     brightness_rank "Locrian" = 6) ∧
    (brightness_rank "Lydian" < brightness_rank "Ionian" ∧
     brightness_rank "Ionian" < brightness_rank "Mixolydian" ∧
     brightness_rank "Mixolydian" < brightness_rank "Dorian" ∧
     brightness_rank "Dorian" < brightness_rank "Aeolian" ∧
     brightness_rank "Aeolian" < brightness_rank "Phrygian" ∧
     brightness_rank "Phrygian" < brightness_rank "Locrian") ∧
    (∀ s, s ∉ BRIGHTNESS_ORDER → brightness_rank s = 100 ∧ 6 < brightness_rank s) := by
  refine ⟨by decide, by decide, ?_⟩
  intro s hs
  simp only [BRIGHTNESS_ORDER, List.mem_cons, List.not_mem_nil, or_false, not_or] at hs
  obtain ⟨h1, h2, h3, h4, h5, h6, h7⟩ := hs
  have hmap : BRIGHTNESS_MAP =
      [("Lydian", 0), ("Ionian", 1), ("Mixolydian", 2), ("Dorian", 3),
       ("Aeolian", 4), ("Phrygian", 5), ("Locrian", 6)] := rfl
  have e1 : (s == "Lydian") = false := beq_eq_false_iff_ne.mpr h1
  have e2 : (s == "Ionian") = false := beq_eq_false_iff_ne.mpr h2
  have e3 : (s == "Mixolydian") = false := beq_eq_false_iff_ne.mpr h3
  have e4 : (s == "Dorian") = false := beq_eq_false_iff_ne.mpr h4
  have e5 : (s == "Aeolian") = false := beq_eq_false_iff_ne.mpr h5
  have e6 : (s == "Phrygian") = false := beq_eq_false_iff_ne.mpr h6
  have e7 : (s == "Locrian") = false := beq_eq_false_iff_ne.mpr h7
  have : brightness_rank s = 100 := by
    unfold brightness_rank
    rw [hmap]
    simp [List.lookup, e1, e2, e3, e4, e5, e6, e7]
  exact ⟨this, by rw [this]; exact by decide⟩

/-- Witness for C9 at the unrecognized name "Foo". -/
theorem C9_witness : brightness_rank "Foo" = 100 ∧ 6 < brightness_rank "Foo" :=
  C9_brightness.2.2 "Foo" (by decide)

/-- The scale loop emits one note per step. -/
theorem build_scale_loop_length : ∀ (l : List Nat) (i : Nat),
    (build_scale_loop i l).length = l.length := by
  intro l
  induction l with
  | nil => intro i; rfl
  | cons s rest ih => intro i; simp [build_scale_loop, ih]

/-- Indexing `NOTES_SHARP` is injective below 12, expressed via `indexOf`. -/
theorem indexOf_getD : ∀ j, j < 12 → NOTES_SHARP.indexOf (NOTES_SHARP.getD j "") = j := by
  decide

/-- Each note the scale loop emits sits one step (mod 12) past its
predecessor, with `NOTES_SHARP[i]` prepended as the starting note. -/
theorem build_scale_loop_adjacent : ∀ (l : List Nat) (i : Nat), i < 12 →
    ∀ k, k < l.length →
      NOTES_SHARP.indexOf ((NOTES_SHARP.getD i "" :: build_scale_loop i l).getD (k + 1) "") =
        (NOTES_SHARP.indexOf ((NOTES_SHARP.getD i "" :: build_scale_loop i l).getD k "") +
          l.getD k 0) % 12 := by
  intro l
  induction l with
  | nil => intro i _ k hk; simp at hk
  | cons s rest ih =>
    intro i hi k hk
    have hj : (i + s) % 12 < 12 := Nat.mod_lt _ (by decide)
    cases k with
    | zero =>
      simp only [build_scale_loop, List.getD_cons_succ, List.getD_cons_zero]
      rw [indexOf_getD _ hj, indexOf_getD _ hi]
    | succ k =>
      simp only [build_scale_loop, List.getD_cons_succ]
      have := ih ((i + s) % 12) hj k (by simpa using Nat.lt_of_succ_lt_succ hk)
      simpa using this

/-- Full specification of `build_scale` on a 7-step list, for a root whose
chromatic index is `i`. -/
theorem build_scale_spec (root : String) (i : Nat) (hi : i < 12)
    (hfind : NOTES_SHARP.indexOf? root = some i)
    (hnote : NOTES_SHARP.getD i "" = root)
    (steps : List Nat) (hlen : steps.length = 7) :
    ∃ scale, build_scale root steps = Except.ok scale ∧
      scale.length = 7 ∧
      scale.headD "" = root ∧
      (∀ k, k < 6 →
        NOTES_SHARP.indexOf (scale.getD (k + 1) "") =
          (NOTES_SHARP.indexOf (scale.getD k "") + steps.getD k 0) % 12) ∧
      (∀ steps' : List Nat, steps'.length = 7 → steps'.take 6 = steps.take 6 →
        build_scale root steps' = build_scale root steps) := by
  have hd : steps.dropLast = steps.take 6 := by
    rw [List.dropLast_eq_take, hlen]
  refine ⟨root :: build_scale_loop i steps.dropLast, ?_, ?_, rfl, ?_, ?_⟩
  · unfold build_scale
    rw [hfind]
  · simp [build_scale_loop_length, List.length_dropLast, hlen]
  · intro k hk
    rw [hd, ← hnote]
    have ht : (steps.take 6).getD k 0 = steps.getD k 0 := by
      simp [List.getD_eq_getElem?_getD, List.getElem?_take_of_lt hk]
    rw [← ht]
    exact build_scale_loop_adjacent (steps.take 6) i hi k
      (by simp [hlen]; omega)
  · intro steps' h7 htake
    unfold build_scale
    rw [hfind]
    have heq : steps'.dropLast = steps.dropLast := by
      rw [List.dropLast_eq_take, List.dropLast_eq_take, h7, hlen, htake]
    rw [heq]

/-- Counterexample to claim C1 as stated: on a six-step list `build_scale`
consumes only the first five steps and returns six notes, not seven. -/
theorem C1_counterexample :
    build_scale "C" [2, 2, 1, 2, 2, 2] = Except.ok ["C", "D", "E", "F", "G", "A"] ∧
    (["C", "D", "E", "F", "G", "A"] : List String).length ≠ 7 := by
  constructor <;> decide

/-- Claim C1 (amended to 7-step lists): for every recognized root and every
step list of exactly 7 intervals, `build_scale` returns 7 notes starting at
the root, each subsequent note's index advancing the previous one's by the
next step modulo 12, and the result depends only on the first 6 steps. -/
theorem C1_amended_scale_shape :
    ∀ root ∈ NOTES_SHARP, ∀ steps : List Nat, steps.length = 7 →
      ∃ scale, build_scale root steps = Except.ok scale ∧
        scale.length = 7 ∧
        scale.headD "" = root ∧
        (∀ k, k < 6 →
          NOTES_SHARP.indexOf (scale.getD (k + 1) "") =
            (NOTES_SHARP.indexOf (scale.getD k "") + steps.getD k 0) % 12) ∧
        (∀ steps' : List Nat, steps'.length = 7 → steps'.take 6 = steps.take 6 →
          build_scale root steps' = build_scale root steps) := by
  intro root hroot steps hlen
  fin_cases hroot
  · exact build_scale_spec _ 0 (by decide) (by decide) (by decide) steps hlen
  · exact build_scale_spec _ 1 (by decide) (by decide) (by decide) steps hlen
  · exact build_scale_spec _ 2 (by decide) (by decide) (by decide) steps hlen
  · exact build_scale_spec _ 3 (by decide) (by decide) (by decide) steps hlen
  · exact build_scale_spec _ 4 (by decide) (by decide) (by decide) steps hlen
  · exact build_scale_spec _ 5 (by decide) (by decide) (by decide) steps hlen
  · exact build_scale_spec _ 6 (by decide) (by decide) (by decide) steps hlen
  · exact build_scale_spec _ 7 (by decide) (by decide) (by decide) steps hlen
  · exact build_scale_spec _ 8 (by decide) (by decide) (by decide) steps hlen
  · exact build_scale_spec _ 9 (by decide) (by decide) (by decide) steps hlen
  · exact build_scale_spec _ 10 (by decide) (by decide) (by decide) steps hlen
  · exact build_scale_spec _ 11 (by decide) (by decide) (by decide) steps hlen

/-- Witness for the amended C1 at root C with the Ionian steps. -/
theorem C1_witness :
    ∃ scale, build_scale "C" [2, 2, 1, 2, 2, 2, 1] = Except.ok scale ∧
      scale.length = 7 ∧
      scale.headD "" = "C" ∧
      (∀ k, k < 6 →
        NOTES_SHARP.indexOf (scale.getD (k + 1) "") =
          (NOTES_SHARP.indexOf (scale.getD k "") +
            ([2, 2, 1, 2, 2, 2, 1] : List Nat).getD k 0) % 12) ∧
      (∀ steps' : List Nat, steps'.length = 7 →
          steps'.take 6 = ([2, 2, 1, 2, 2, 2, 1] : List Nat).take 6 →
          build_scale "C" steps' = build_scale "C" [2, 2, 1, 2, 2, 2, 1]) :=
  C1_amended_scale_shape "C" (by decide) [2, 2, 1, 2, 2, 2, 1] (by decide)

/-- Under distinct keys, `lookup` of a member's key returns its value. -/
theorem lookup_of_mem_of_nodup :
    ∀ (fam : List (String × List String)), (fam.map Prod.fst).Nodup →
      ∀ p ∈ fam, fam.lookup p.1 = some p.2 := by
  intro fam
  induction fam with
  | nil => intro _ p hp; simp at hp
  | cons q t ih =>
    obtain ⟨k, v⟩ := q
    intro hn p hp
    have hq : k ∉ t.map Prod.fst := by
      simp only [List.map_cons, List.nodup_cons] at hn
      exact hn.1
    have hn' : (t.map Prod.fst).Nodup := by
      simp only [List.map_cons, List.nodup_cons] at hn
      exact hn.2
    rcases List.mem_cons.mp hp with rfl | hp'
    · simp [List.lookup_cons]
    · have hne : p.1 ≠ k := by
        intro h
        apply hq
        rw [← h]
        exact List.mem_map_of_mem Prod.fst hp'
      simp only [List.lookup_cons, beq_eq_false_iff_ne.mpr hne]
      exact ih hn' p hp'

/-- Rebuilding a sublist of a distinct-key association list by key lookup is
the identity. -/
theorem map_lookup_reconstruct (fam : List (String × List String))
    (hn : (fam.map Prod.fst).Nodup) (sub : List (String × List String))
    (hsub : ∀ p ∈ sub, p ∈ fam) :
    sub.map (fun p => (p.1, (fam.lookup p.1).getD [])) = sub := by
  have h : ∀ p ∈ sub, (fun p => (p.1, (fam.lookup p.1).getD [])) p = id p := by
    intro p hp
    simp [lookup_of_mem_of_nodup fam hn p (hsub p hp)]
  rw [List.map_congr_left h, List.map_id]

/-- Under distinct keys, `reorder_modes` is exactly the rotation of the entry
list at the first suffix match (position 0 when none matches). -/
theorem reorder_modes_eq (fam : List (String × List String)) (name : String)
    (hn : (fam.map Prod.fst).Nodup) :
    reorder_modes fam name =
      fam.drop (((fam.map Prod.fst).findIdx? (fun k => endswith k name)).getD 0) ++
      fam.take (((fam.map Prod.fst).findIdx? (fun k => endswith k name)).getD 0) := by
  unfold reorder_modes
  dsimp only
  rw [← List.map_drop, ← List.map_take, ← List.map_append, List.map_map]
  exact map_lookup_reconstruct fam hn _
    (fun p hp => by
      rcases List.mem_append.mp hp with h | h
      · exact List.mem_of_mem_drop h
      · exact List.mem_of_mem_take h)

/-- Claim C8: for every family with distinct labels, `reorder_modes` is a pure
cyclic rotation: it equals the drop/take rotation at the first label whose
suffix matches, it permutes the entries with labels and chord lists unchanged,
the rotated head's label ends with the requested name whenever any label
matches, a family with no matching label is returned unchanged, and applying
`reorder_modes` twice with the same name equals applying it once. -/
theorem C8_pure_rotation :
    ∀ (fam : List (String × List String)) (name : String),
      (fam.map Prod.fst).Nodup →
      (reorder_modes fam name =
        fam.drop (((fam.map Prod.fst).findIdx? (fun k => endswith k name)).getD 0) ++
        fam.take (((fam.map Prod.fst).findIdx? (fun k => endswith k name)).getD 0)) ∧
      (reorder_modes fam name).Perm fam ∧
      (∀ s, (fam.map Prod.fst).findIdx? (fun k => endswith k name) = some s →
        endswith (((reorder_modes fam name).headD ("", [])).1) name = true) ∧
      ((fam.map Prod.fst).findIdx? (fun k => endswith k name) = none →
        reorder_modes fam name = fam) ∧
      reorder_modes (reorder_modes fam name) name = reorder_modes fam name := by
  intro fam name hn
  have hrot := reorder_modes_eq fam name hn
  refine ⟨hrot, ?_, ?_, ?_, ?_⟩
  · rw [hrot]
    have h3 : (fam.drop (((fam.map Prod.fst).findIdx? (fun k => endswith k name)).getD 0) ++
        fam.take (((fam.map Prod.fst).findIdx? (fun k => endswith k name)).getD 0)).Perm
          (fam.take (((fam.map Prod.fst).findIdx? (fun k => endswith k name)).getD 0) ++
           fam.drop (((fam.map Prod.fst).findIdx? (fun k => endswith k name)).getD 0)) :=
      List.perm_append_comm
    rwa [List.take_append_drop] at h3
  · intro s hs
    obtain ⟨hlt, hp, -⟩ := List.findIdx?_eq_some_iff_getElem.mp hs
    have hlt' : s < fam.length := by simpa using hlt
    rw [hrot, hs]
    simp only [Option.getD_some]
    rw [List.drop_eq_getElem_cons hlt', List.cons_append]
    simp only [List.headD_cons]
    rw [List.getElem_map] at hp
    exact hp
  · intro h0
    rw [hrot, h0]
    simp
  · cases h : (fam.map Prod.fst).findIdx? (fun k => endswith k name) with
    | none =>
      have hf : reorder_modes fam name = fam := by
        rw [hrot, h]
        simp
      rw [hf]
      exact hf
    | some s =>
      obtain ⟨hlt, hp, -⟩ := List.findIdx?_eq_some_iff_getElem.mp h
      have hR : reorder_modes fam name = fam.drop s ++ fam.take s := by
        rw [hrot, h]
        rfl
      have hkeys : (fam.drop s ++ fam.take s).map Prod.fst
          = (fam.map Prod.fst).drop s ++ (fam.map Prod.fst).take s := by
        rw [List.map_append, List.map_drop, List.map_take]
      have hnR : ((fam.drop s ++ fam.take s).map Prod.fst).Nodup := by
        rw [hkeys]
        refine List.Perm.nodup ?_ hn
        have h3 : ((fam.map Prod.fst).drop s ++ (fam.map Prod.fst).take s).Perm
            ((fam.map Prod.fst).take s ++ (fam.map Prod.fst).drop s) :=
          List.perm_append_comm
        rw [List.take_append_drop] at h3
        exact h3.symm
      have hfind0 : ((fam.drop s ++ fam.take s).map Prod.fst).findIdx?
          (fun k => endswith k name) = some 0 := by
        rw [hkeys, List.drop_eq_getElem_cons hlt, List.cons_append, List.findIdx?_cons]
        simp only [List.getElem_map] at hp
        simp [hp]
      have h2 := reorder_modes_eq (fam.drop s ++ fam.take s) name hnR
      rw [hR, h2, hfind0]
      simp

/-- Witness for C8 on a two-entry family rotated to start at Dorian. -/
theorem C8_witness :
    (reorder_modes [("C Ionian", ["C"]), ("D Dorian", ["Dmin"])] "Dorian" =
      ([("C Ionian", ["C"]), ("D Dorian", ["Dmin"])] : List (String × List String)).drop
        (((([("C Ionian", ["C"]), ("D Dorian", ["Dmin"])] : List (String × List String)).map
            Prod.fst).findIdx? (fun k => endswith k "Dorian")).getD 0) ++
      ([("C Ionian", ["C"]), ("D Dorian", ["Dmin"])] : List (String × List String)).take
        (((([("C Ionian", ["C"]), ("D Dorian", ["Dmin"])] : List (String × List String)).map
            Prod.fst).findIdx? (fun k => endswith k "Dorian")).getD 0)) ∧
    (reorder_modes [("C Ionian", ["C"]), ("D Dorian", ["Dmin"])] "Dorian").Perm
      [("C Ionian", ["C"]), ("D Dorian", ["Dmin"])] ∧
    (∀ s, (([("C Ionian", ["C"]), ("D Dorian", ["Dmin"])] : List (String × List String)).map
        Prod.fst).findIdx? (fun k => endswith k "Dorian") = some s →
      endswith (((reorder_modes [("C Ionian", ["C"]), ("D Dorian", ["Dmin"])] "Dorian").headD
        ("", [])).1) "Dorian" = true) ∧
    ((([("C Ionian", ["C"]), ("D Dorian", ["Dmin"])] : List (String × List String)).map
        Prod.fst).findIdx? (fun k => endswith k "Dorian") = none →
      reorder_modes [("C Ionian", ["C"]), ("D Dorian", ["Dmin"])] "Dorian" =
        [("C Ionian", ["C"]), ("D Dorian", ["Dmin"])]) ∧
    reorder_modes (reorder_modes [("C Ionian", ["C"]), ("D Dorian", ["Dmin"])] "Dorian")
        "Dorian" =
      reorder_modes [("C Ionian", ["C"]), ("D Dorian", ["Dmin"])] "Dorian" :=
  C8_pure_rotation [("C Ionian", ["C"]), ("D Dorian", ["Dmin"])] "Dorian" (by decide)

/-- Counterexample to claim C10 as stated: in the matcher's case-sensitive
sense, "Lydian" is not a suffix of "Mixolydian" (the Mixolydian label of the
relative family of C does not end with "Lydian"). -/
theorem C10_counterexample :
    (∃ fam, relative_modes "C" = Except.ok fam ∧ (fam.getD 4 ("", [])).1 = "G Mixolydian") ∧
    endswith "G Mixolydian" "Lydian" = false ∧
    endswith "Mixolydian" "Lydian" = false :=
  ⟨⟨_, rfl, rfl⟩, rfl, rfl⟩

/-- Claim C10 (amended): for every recognized root and every mode index,
`reorder_modes` applied to the relative or parallel family puts that very
mode's entry first; the `endswith` match is case-sensitive, so "Mixolydian"
labels never match the name "Lydian" and the suffix match never selects a
wrong entry. -/
theorem C10_reorder_selects_mode :
    ∀ R ∈ NOTES_SHARP,
      ∃ fam pfam, relative_modes R = Except.ok fam ∧ parallel_modes R = Except.ok pfam ∧
        ∀ i, i < 7 →
          (reorder_modes fam (MODE_NAMES.getD i "")).headD ("", []) = fam.getD i ("", []) ∧
          endswith ((fam.getD i ("", [])).1) (MODE_NAMES.getD i "") = true ∧
          (reorder_modes pfam (MODE_NAMES.getD i "")).headD ("", []) = pfam.getD i ("", []) ∧
          endswith ((pfam.getD i ("", [])).1) (MODE_NAMES.getD i "") = true := by
  intro R hR
  fin_cases hR <;> exact ⟨_, _, rfl, rfl, by decide⟩

/-- Witness for the amended C10 at root C. -/
theorem C10_witness :
    ∃ fam pfam, relative_modes "C" = Except.ok fam ∧ parallel_modes "C" = Except.ok pfam ∧
      ∀ i, i < 7 →
        (reorder_modes fam (MODE_NAMES.getD i "")).headD ("", []) = fam.getD i ("", []) ∧
        endswith ((fam.getD i ("", [])).1) (MODE_NAMES.getD i "") = true ∧
        (reorder_modes pfam (MODE_NAMES.getD i "")).headD ("", []) = pfam.getD i ("", []) ∧
        endswith ((pfam.getD i ("", [])).1) (MODE_NAMES.getD i "") = true :=
  C10_reorder_selects_mode "C" (by decide)

end MusicModes
